import Mathlib

/- Verification development for the things3-mcp write-and-recover core.
   The definitions below shallowly embed the TypeScript source
   (src/utils/url-scheme.ts, src/tools/todos.ts, src/config.ts together with
   src/utils/database.ts, and the AppleScript template library) as executable
   Lean functions; generated AppleScript is embedded by its runtime semantics
   on an explicit host state.  Theorems at the end settle the spec claims. -/

namespace Things3

/-! ### AppleScript string escaping (Payload Encoder)

`AppleScriptBridge.escapeString` lives in src/utils/applescript.ts, which is
not part of the provided sources; it is modelled from the spec. -/

/-- Modelled from the spec: `AppleScriptBridge.escapeString`
(src/utils/applescript.ts is absent from the sources).  Per the spec, string
attribute values embedded in script text are escaped against AppleScript's
string-literal syntax — backslash and double quote — and newlines, before
interpolation. -/
def escapeStringChars : List Char → List Char
  | [] => []
  | c :: cs =>
    if c = '\\' then '\\' :: '\\' :: escapeStringChars cs
    else if c = '"' then '\\' :: '"' :: escapeStringChars cs
    else if c = '\n' then '\\' :: 'n' :: escapeStringChars cs
    else c :: escapeStringChars cs

/-- The inverse AppleScript string-literal parser, constructed for the
round-trip test exactly as the spec instructs. -/
def unescapeStringChars : List Char → List Char
  | [] => []
  | [c] => [c]
  | c :: d :: cs =>
    if c = '\\' then
      (if d = '"' then '"' else if d = 'n' then '\n' else d) :: unescapeStringChars cs
    else
      c :: unescapeStringChars (d :: cs)

/-- String-level wrapper for `escapeStringChars`. -/
def escapeString (s : String) : String := String.mk (escapeStringChars s.data)

/-- String-level wrapper for `unescapeStringChars`. -/
def unescapeString (s : String) : String := String.mk (unescapeStringChars s.data)

/-! ### Tag-delta emulator (AppleScript template `removeTagsFromItems`)

The generated script's `removeTag` subroutine splits the stored tag text on
",", trims ASCII spaces from each item (via `sed 's/^ *//;s/ *$//'`), keeps
the items different from the tag being removed, and joins the remainder with
", ".  Per item the script only writes the tag string back when it differs
from the original.  We embed the script's runtime behaviour on the stored
tag text, represented as a `List Char`. -/

/-- Drop leading ASCII spaces (one half of `sed 's/^ *//;s/ *$//'`). -/
def dropLeadingSpaces : List Char → List Char
  | [] => []
  | c :: cs => if c = ' ' then dropLeadingSpaces cs else c :: cs

/-- Trim leading and trailing ASCII spaces, the semantics of the shell
trimming step (`sed 's/^ *//;s/ *$//'`) inside the generated `removeTag`
subroutine. -/
def trimSpacesChars (l : List Char) : List Char :=
  (dropLeadingSpaces (dropLeadingSpaces l).reverse).reverse

/-- Split on the comma delimiter (AppleScript `text items` with text item
delimiters ","), accumulator-style. -/
def splitCommaAux : List Char → List Char → List (List Char)
  | [], acc => [acc.reverse]
  | c :: cs, acc =>
    if c = ',' then acc.reverse :: splitCommaAux cs [] else splitCommaAux cs (c :: acc)

/-- Join tag items back with ", " (the subroutine sets the text item
delimiters to ", " before coercing the list to a string). -/
def joinCommaSpace : List (List Char) → List Char
  | [] => []
  | [x] => x
  | x :: xs => x ++ ',' :: ' ' :: joinCommaSpace xs

/-- One `removeTag(tagList, tagToRemove)` call of the generated script:
split on ",", trim each item, drop exact matches, rejoin with ", ". -/
def removeTagChars (tagList tagToRemove : List Char) : List Char :=
  joinCommaSpace (((splitCommaAux tagList []).map trimSpacesChars).filter (· ≠ tagToRemove))

/-- The per-item loop body applies `removeTag` once for every tag in the
removal list, threading the current tag text through. -/
def removeTagsChars (current : List Char) (tags : List (List Char)) : List Char :=
  tags.foldl removeTagChars current

/-- Net effect of `removeTagsFromItems` on one item's stored tag text:
`none` means no write-back happens (tag text empty, or removal changed
nothing); `some t` means the host is asked to replace the tags with `t`. -/
def applyRemoveTagsToItem (current : List Char) (tags : List (List Char)) :
    Option (List Char) :=
  if current = [] then none
  else
    let updated := removeTagsChars current tags
    if updated = current then none else some updated

/-! ### Date normalizer (`URLSchemeHandler.formatDateForUrl` / `isSameDay`)

JavaScript `Date` values are embedded as milliseconds since the Unix epoch
(an `Int`), with the executing system's local time zone represented as a
fixed offset from UTC in minutes.  Calendar conversions use the standard
civil-from-days / days-from-civil algorithms, which agree with ECMAScript
date arithmetic.  `new Date(isoDate)` is modelled for the ISO-8601 forms
relevant here: `YYYY-MM-DD` (parsed as UTC midnight, as in ECMAScript) and
`YYYY-MM-DDTHH:MM:SSZ`; every other string is out of the model and parses to
`none` (Invalid Date). -/

/-- Milliseconds per day. -/
def msPerDay : Int := 86400000

/-- Days since 1970-01-01 of a proleptic-Gregorian civil date. -/
def daysFromCivil (y m d : Int) : Int :=
  let yAdj := y - (if m ≤ 2 then 1 else 0)
  let era := Int.fdiv yAdj 400
  let yoe := yAdj - era * 400
  let mp := Int.fmod (m + 9) 12
  let doy := Int.fdiv (153 * mp + 2) 5 + d - 1
  let doe := yoe * 365 + Int.fdiv yoe 4 - Int.fdiv yoe 100 + doy
  era * 146097 + doe - 719468

/-- Civil date (year, month, day) of a count of days since 1970-01-01. -/
def civilFromDays (z : Int) : Int × Int × Int :=
  let z2 := z + 719468
  let era := Int.fdiv z2 146097
  let doe := z2 - era * 146097
  let yoe := Int.fdiv (doe - Int.fdiv doe 1460 + Int.fdiv doe 36524 - Int.fdiv doe 146096) 365
  let y := yoe + era * 400
  let doy := doe - (365 * yoe + Int.fdiv yoe 4 - Int.fdiv yoe 100)
  let mp := Int.fdiv (5 * doy + 2) 153
  let d := doy - Int.fdiv (153 * mp + 2) 5 + 1
  let m := mp + (if mp < 10 then 3 else (-9))
  (if m ≤ 2 then y + 1 else y, m, d)

/-- Numeric value of a decimal digit character. -/
def digitVal (c : Char) : Nat := c.toNat - '0'.toNat

/-- Parse two decimal digit characters. -/
def parse2 (a b : Char) : Option Nat :=
  if a.isDigit ∧ b.isDigit then some (10 * digitVal a + digitVal b) else none

/-- Parse four decimal digit characters. -/
def parse4 (a b c d : Char) : Option Nat :=
  if a.isDigit ∧ b.isDigit ∧ c.isDigit ∧ d.isDigit then
    some (1000 * digitVal a + 100 * digitVal b + 10 * digitVal c + digitVal d)
  else none

/-- Gregorian leap-year test. -/
def isLeapYear (y : Int) : Bool :=
  (Int.emod y 4 == 0 && Int.emod y 100 != 0) || Int.emod y 400 == 0

/-- Days in a month of a given year. -/
def daysInMonth (y m : Int) : Int :=
  if m = 2 then (if isLeapYear y then 29 else 28)
  else if m = 4 ∨ m = 6 ∨ m = 9 ∨ m = 11 then 30
  else 31

/-- `new Date(s)` for the ISO-8601 date and date-time (UTC) forms: the
timestamp in milliseconds since the epoch, or `none` for Invalid Date. -/
def parseIsoDateString (s : String) : Option Int :=
  match s.data with
  | [y1, y2, y3, y4, g1, m1, m2, g2, d1, d2] =>
    match parse4 y1 y2 y3 y4, parse2 m1 m2, parse2 d1 d2 with
    | some y, some mo, some dy =>
      if g1 = '-' ∧ g2 = '-' ∧ 1 ≤ mo ∧ mo ≤ 12 ∧ 1 ≤ dy ∧
          (dy : Int) ≤ daysInMonth (y : Int) (mo : Int) then
        some (daysFromCivil y mo dy * msPerDay)
      else none
    | _, _, _ => none
  | [y1, y2, y3, y4, g1, m1, m2, g2, d1, d2, tt, h1, h2, c1, i1, i2, c2, s1, s2, zz] =>
    match parse4 y1 y2 y3 y4, parse2 m1 m2, parse2 d1 d2,
        parse2 h1 h2, parse2 i1 i2, parse2 s1 s2 with
    | some y, some mo, some dy, some hh, some mi, some ss =>
      if g1 = '-' ∧ g2 = '-' ∧ tt = 'T' ∧ c1 = ':' ∧ c2 = ':' ∧ zz = 'Z' ∧
          1 ≤ mo ∧ mo ≤ 12 ∧ 1 ≤ dy ∧ (dy : Int) ≤ daysInMonth (y : Int) (mo : Int) ∧
          hh < 24 ∧ mi < 60 ∧ ss < 60 then
        some (daysFromCivil y mo dy * msPerDay + ((hh * 60 + mi) * 60 + ss) * 1000)
      else none
    | _, _, _, _, _, _ => none
  | _ => none

/-- Local civil date of a timestamp, for a system at a fixed UTC offset in
minutes (the components `getFullYear`/`getMonth`/`getDate` read). -/
def localCivilOfMs (tzOffsetMin ms : Int) : Int × Int × Int :=
  civilFromDays (Int.fdiv (ms + tzOffsetMin * 60000) msPerDay)

/-- Left-pad a natural number with zeros to a given width. -/
def padNat (width n : Nat) : String :=
  let s := toString n
  String.mk (List.replicate (width - s.length) '0') ++ s

/-- Render a civil date as `YYYY-MM-DD` (the date part of `toISOString`). -/
def isoDateString (ymd : Int × Int × Int) : String :=
  padNat 4 ymd.1.toNat ++ "-" ++ padNat 2 ymd.2.1.toNat ++ "-" ++ padNat 2 ymd.2.2.toNat

/-- `URLSchemeHandler.formatDateForUrl`: `undefined`/empty/unparseable input
gives `none`; a date on the system's current local day gives "today"; on the
next local day, "tomorrow"; anything else the `toISOString` date part (the
UTC calendar date).  `nowMs` is the `new Date()` timestamp and `tzOffsetMin`
the system's local offset. -/
def formatDateForUrl (tzOffsetMin nowMs : Int) (isoDate : Option String) : Option String :=
  match isoDate with
  | none => none
  | some s =>
    if s = "" then none
    else
      match parseIsoDateString s with
      | none => none
      | some ms =>
        let dateLocal := localCivilOfMs tzOffsetMin ms
        let todayLocal := localCivilOfMs tzOffsetMin nowMs
        if dateLocal = todayLocal then some "today"
        else if dateLocal =
            civilFromDays (daysFromCivil todayLocal.1 todayLocal.2.1 todayLocal.2.2 + 1) then
          some "tomorrow"
        else some (isoDateString (civilFromDays (Int.fdiv ms msPerDay)))

/-! ### Simple URL building (`URLSchemeHandler.buildUrl`)

`Record<string, unknown>` parameter maps become association lists over a
`ParamValue` sum covering the value shapes the source distinguishes
(string, number, boolean, array, `null`, `undefined`).  `URLSearchParams`
serialization is the WHATWG `application/x-www-form-urlencoded` encoding:
ASCII alphanumerics and `*-._` kept, space as `+`, every other character
percent-encoded from its UTF-8 bytes; the source then rewrites every `+`
to `%20`. -/

/-- The value shapes `buildUrl` distinguishes in a parameter map. -/
inductive ParamValue where
  | str (s : String)
  | num (n : Int)
  | boolean (b : Bool)
  | arr (l : List String)
  | null
  | undef
deriving DecidableEq, Repr

/-- One `Object.entries(params).forEach` step of `buildUrl`: `null` and
`undefined` are skipped, arrays are comma-joined, booleans become
"true"/"false", strings and numbers are stringified. -/
def serializeParam : String × ParamValue → Option (String × String)
  | (_, ParamValue.null) => none
  | (_, ParamValue.undef) => none
  | (k, ParamValue.arr l) => some (k, String.intercalate "," l)
  | (k, ParamValue.boolean b) => some (k, if b then "true" else "false")
  | (k, ParamValue.str s) => some (k, s)
  | (k, ParamValue.num n) => some (k, toString n)

/-- The key/value pairs appended to `URLSearchParams`: the auth token first
when the environment provides one, then the serialized parameters. -/
def buildUrlPairs (authToken : Option String) (params : List (String × ParamValue)) :
    List (String × String) :=
  (match authToken with
    | some t => [("auth-token", t)]
    | none => []) ++ params.filterMap serializeParam

/-- Is a character kept verbatim by `application/x-www-form-urlencoded`? -/
def isFormUnreserved (c : Char) : Bool :=
  ('A' ≤ c && c ≤ 'Z') || ('a' ≤ c && c ≤ 'z') || ('0' ≤ c && c ≤ '9') ||
    c == '*' || c == '-' || c == '.' || c == '_'

/-- Uppercase hexadecimal digit. -/
def hexDigitChar (n : Nat) : Char :=
  if n < 10 then Char.ofNat ('0'.toNat + n) else Char.ofNat ('A'.toNat + n - 10)

/-- UTF-8 bytes of a character. -/
def utf8Bytes (c : Char) : List Nat :=
  let n := c.toNat
  if n < 128 then [n]
  else if n < 2048 then [192 + n / 64, 128 + n % 64]
  else if n < 65536 then [224 + n / 4096, 128 + (n / 64) % 64, 128 + n % 64]
  else [240 + n / 262144, 128 + (n / 4096) % 64, 128 + (n / 64) % 64, 128 + n % 64]

/-- `%XX` percent-encoding of one byte. -/
def percentEncodeByte (b : Nat) : List Char :=
  ['%', hexDigitChar (b / 16), hexDigitChar (b % 16)]

/-- Form-urlencode one character (space becomes `+`). -/
def formEncodeChar (c : Char) : List Char :=
  if isFormUnreserved c then [c]
  else if c = ' ' then ['+']
  else ((utf8Bytes c).map percentEncodeByte).flatten

/-- Form-urlencode a string. -/
def formEncodeString (s : String) : List Char :=
  (s.data.map formEncodeChar).flatten

/-- `URLSearchParams.toString()`: `key=value` pairs joined with `&`. -/
def serializeQuery : List (String × String) → List Char
  | [] => []
  | [p] => formEncodeString p.1 ++ '=' :: formEncodeString p.2
  | p :: ps => formEncodeString p.1 ++ '=' :: formEncodeString p.2 ++ '&' :: serializeQuery ps

/-- The source's `.replace(/\+/g, '%20')` on the query string. -/
def plusToPercent20 : List Char → List Char
  | [] => []
  | c :: cs =>
    if c = '+' then '%' :: '2' :: '0' :: plusToPercent20 cs else c :: plusToPercent20 cs

/-- The `Things3Operation` enum. -/
inductive Things3Operation where
  | add
  | addProject
  | update
  | updateProject
  | showOp
  | searchOp
  | jsonOp
deriving DecidableEq, Repr

/-- String value of each `Things3Operation` member. -/
def opName : Things3Operation → String
  | Things3Operation.add => "add"
  | Things3Operation.addProject => "add-project"
  | Things3Operation.update => "update"
  | Things3Operation.updateProject => "update-project"
  | Things3Operation.showOp => "show"
  | Things3Operation.searchOp => "search"
  | Things3Operation.jsonOp => "json"

/-- `URLSchemeHandler.buildUrl`: base URL plus the rewritten query string,
with the query omitted when it is empty. -/
def buildUrl (authToken : Option String) (operation : Things3Operation)
    (params : List (String × ParamValue)) : String :=
  let queryString := plusToPercent20 (serializeQuery (buildUrlPairs authToken params))
  if queryString = [] then "things:///" ++ opName operation
  else "things:///" ++ opName operation ++ "?" ++ String.mk queryString

/-- Is a character kept verbatim by ECMAScript `encodeURIComponent`? -/
def isUriUnreserved (c : Char) : Bool :=
  ('A' ≤ c && c ≤ 'Z') || ('a' ≤ c && c ≤ 'z') || ('0' ≤ c && c ≤ '9') ||
    c == '-' || c == '_' || c == '.' || c == '!' || c == '~' || c == '*' ||
    c == '\'' || c == '(' || c == ')'

/-- ECMAScript `encodeURIComponent` (space becomes `%20` directly). -/
def encodeURIComponentStr (s : String) : String :=
  String.mk ((s.data.map (fun c =>
    if isUriUnreserved c then [c]
    else ((utf8Bytes c).map percentEncodeByte).flatten)).flatten)

/-- `URLSchemeHandler.buildJsonUrl` applied to the already-serialized JSON
payload: the auth token, when available, rides as a URL parameter. -/
def buildJsonUrl (authToken : Option String) (jsonData : String) : String :=
  match authToken with
  | some t => "things:///json?data=" ++ encodeURIComponentStr jsonData ++ "&auth-token=" ++ t
  | none => "things:///json?data=" ++ encodeURIComponentStr jsonData

/-! ### Structured update documents (`URLSchemeHandler.updateTodo` and the
batch status changes)

A JSON attribute value in an update document. -/

/-- Attribute values appearing in the structured JSON documents. -/
inductive AttrValue where
  | str (s : String)
  | strList (l : List String)
  | boolVal (b : Bool)
deriving DecidableEq, Repr

/-- Parameters of `URLSchemeHandler.updateTodo`.  An outer `none` is a key
absent from the intent (TypeScript `undefined`); for the
`string | null` fields, `some none` is an explicit `null` ("clear"). -/
structure UpdateTodoParams where
  title : Option String
  notes : Option String
  whenDate : Option (Option String)
  deadline : Option (Option String)
  tags : Option (List String)
  completed : Option Bool
  canceled : Option Bool
  listId : Option (Option String)
deriving DecidableEq, Repr

/-- `params.x === null ? '' : this.formatDateForUrl(params.x)`: explicit
null becomes the empty-string clear sentinel, otherwise the date is
normalized (which may itself come back `undefined`). -/
def encodeDateField (tzOffsetMin nowMs : Int) : Option (Option String) → Option AttrValue
  | some none => some (AttrValue.str "")
  | none => (formatDateForUrl tzOffsetMin nowMs none).map AttrValue.str
  | some (some s) => (formatDateForUrl tzOffsetMin nowMs (some s)).map AttrValue.str

/-- `params.listId === null ? '' : params.listId`. -/
def encodeClearableString : Option (Option String) → Option AttrValue
  | some none => some (AttrValue.str "")
  | none => none
  | some (some s) => some (AttrValue.str s)

/-- The attribute object `updateTodo` builds, in insertion order, before
undefined-valued keys are deleted; the auth token is added after the
literal fields. -/
def updateTodoRawAttributes (tzOffsetMin nowMs : Int) (authToken : Option String)
    (params : UpdateTodoParams) : List (String × Option AttrValue) :=
  [("title", params.title.map AttrValue.str),
   ("notes", params.notes.map AttrValue.str),
   ("when", encodeDateField tzOffsetMin nowMs params.whenDate),
   ("deadline", encodeDateField tzOffsetMin nowMs params.deadline),
   ("tags", params.tags.map AttrValue.strList),
   ("completed", params.completed.map AttrValue.boolVal),
   ("canceled", params.canceled.map AttrValue.boolVal),
   ("list-id", encodeClearableString params.listId),
   ("auth-token", authToken.map AttrValue.str)]

/-- The attribute object after the `delete todo.attributes[key]` loop
removes every undefined-valued key. -/
def updateTodoAttributes (tzOffsetMin nowMs : Int) (authToken : Option String)
    (params : UpdateTodoParams) : List (String × AttrValue) :=
  (updateTodoRawAttributes tzOffsetMin nowMs authToken params).filterMap
    (fun p => p.2.map (fun v => (p.1, v)))

/-- One item of a structured JSON command document. -/
structure Things3JsonItem where
  itemType : String
  id : String
  operation : String
  attributes : List (String × AttrValue)
deriving DecidableEq, Repr

/-- The single-item document `updateTodo` sends through `buildJsonUrl`. -/
def updateTodoItem (tzOffsetMin nowMs : Int) (authToken : Option String)
    (id : String) (params : UpdateTodoParams) : Things3JsonItem :=
  ⟨"to-do", id, "update", updateTodoAttributes tzOffsetMin nowMs authToken params⟩

/-- Parameters of `URLSchemeHandler.createTodo`. -/
structure CreateTodoParams where
  title : String
  notes : Option String
  whenDate : Option String
  deadline : Option String
  tags : Option (List String)
  checklistItems : Option (List String)
  projectId : Option String
  areaId : Option String
  heading : Option String
deriving DecidableEq, Repr

/-- Lift an optional string into a `buildUrl` parameter value
(`undefined` when absent). -/
def optionalStrParam : Option String → ParamValue
  | some s => ParamValue.str s
  | none => ParamValue.undef

/-- JavaScript `a || b` on two possibly-undefined strings (the empty string
is falsy). -/
def jsOrString (a b : Option String) : Option String :=
  match a with
  | some s => if s = "" then b else some s
  | none => b

/-- The parameter map `createTodo` hands to `buildUrl`, in insertion order;
`checklist-items` is only added when the list is non-empty. -/
def createTodoUrlParams (tzOffsetMin nowMs : Int) (p : CreateTodoParams) :
    List (String × ParamValue) :=
  [("title", ParamValue.str p.title),
   ("notes", optionalStrParam p.notes),
   ("when", optionalStrParam (formatDateForUrl tzOffsetMin nowMs p.whenDate)),
   ("deadline", optionalStrParam (formatDateForUrl tzOffsetMin nowMs p.deadline)),
   ("tags", match p.tags with
     | some ts => ParamValue.str (String.intercalate "," ts)
     | none => ParamValue.undef),
   ("list-id", optionalStrParam (jsOrString p.projectId p.areaId)),
   ("heading", optionalStrParam p.heading)] ++
  (match p.checklistItems with
    | some items =>
      if items.length > 0 then
        [("checklist-items", ParamValue.str (String.intercalate "\n" items))]
      else []
    | none => [])

/-- The URL `URLSchemeHandler.createTodo` executes. -/
def createTodoUrl (tzOffsetMin nowMs : Int) (authToken : Option String)
    (p : CreateTodoParams) : String :=
  buildUrl authToken Things3Operation.add (createTodoUrlParams tzOffsetMin nowMs p)

/-! ### Batch status changes (`completeTodos` / `uncompleteTodos`) -/

/-- The per-id update items `URLSchemeHandler.completeTodos` /
`uncompleteTodos` put into the JSON document: each sets `completed` and
carries the auth token when the environment provides one. -/
def statusChangeItems (authToken : Option String) (completedValue : Bool)
    (ids : List String) : List Things3JsonItem :=
  ids.map (fun id =>
    ⟨"to-do", id, "update",
      ("completed", AttrValue.boolVal completedValue) ::
        (match authToken with
          | some t => [("auth-token", AttrValue.str t)]
          | none => [])⟩)

/-- Result shape shared by `TodosCompleteResult` / `TodosUncompleteResult`. -/
structure BatchCountResult where
  success : Bool
  count : Nat
deriving DecidableEq, Repr

/-- `TodosTools.completeTodos`: after firing the URL, it reports success
and `completedCount: ids.length`. -/
def completeTodosResult (ids : List String) : BatchCountResult :=
  ⟨true, ids.length⟩

/-- `TodosTools.uncompleteTodos`: reports success and
`uncompletedCount: ids.length`. -/
def uncompleteTodosResult (ids : List String) : BatchCountResult :=
  ⟨true, ids.length⟩

/-- Host model for the activation channel: the host applies each update
item of the JSON document in order, marking the matching to-do completed;
items whose id does not exist are silently ignored. -/
def hostApplyCompleteDocs (host : List (String × Bool))
    (items : List Things3JsonItem) : List (String × Bool) :=
  items.foldl (fun h item => h.map (fun t => if t.1 = item.id then (t.1, true) else t)) host

/-- How many host entries the batch actually changed (the per-item effect
count the claim speaks about). -/
def completedEffectCount (host : List (String × Bool))
    (items : List Things3JsonItem) : Nat :=
  ((hostApplyCompleteDocs host items).zip host).countP (fun p => decide (p.1 ≠ p.2))

/-! ### Batch delete (`TodosTools.deleteTodos` with the `deleteTodos`
AppleScript template) -/

/-- Runtime semantics of the generated delete script on a host holding the
given ids: each `to do id X` lookup that fails throws, is caught by the
surrounding `try`, and the loop moves on; successful lookups delete the
item and bump `deletedCount`.  Returns the count and the remaining host. -/
def deleteTodosRun (host : List String) (ids : List String) : Nat × List String :=
  ids.foldl
    (fun acc id => if id ∈ acc.2 then (acc.1 + 1, acc.2.erase id) else acc)
    (0, host)

/-- `TodosDeleteResult` as built by `TodosTools.deleteTodos`: the script's
count, and `success: deletedCount > 0`. -/
def deleteTodosResult (host : List String) (ids : List String) : BatchCountResult :=
  ⟨decide ((deleteTodosRun host ids).1 > 0), (deleteTodosRun host ids).1⟩

/-! ### Listing and creation recovery (`listTodos` template +
`TodosTools.listTodos` / `TodosTools.createTodo`) -/

/-- Status of a host to-do. -/
inductive TodoStatus where
  | opened
  | completed
  | cancelled
deriving DecidableEq, Repr

/-- The smart-list filter keywords of `todos_list`. -/
inductive TodoFilter where
  | inbox
  | today
  | upcoming
  | anytime
  | someday
  | logbook
deriving DecidableEq, Repr

/-- A to-do as the host stores it (the fields the listing script reads). -/
structure HostTodo where
  id : String
  title : String
  notes : String
  status : TodoStatus
  list : TodoFilter
deriving DecidableEq, Repr

/-- A row of the listing script's JSON output. -/
structure TodoSummary where
  id : String
  title : String
  completed : Bool
deriving DecidableEq, Repr

/-- Is `needle` a prefix of `hay`? -/
def isPrefixList : List Char → List Char → Bool
  | [], _ => true
  | _ :: _, [] => false
  | a :: as, b :: bs => a == b && isPrefixList as bs

/-- AppleScript `contains` on text: substring search. -/
def containsAux (needle : List Char) : List Char → Bool
  | [] => isPrefixList needle []
  | c :: cs => isPrefixList needle (c :: cs) || containsAux needle cs

/-- `hay contains needle` for strings. -/
def strContains (hay needle : String) : Bool :=
  containsAux needle.data hay.data

/-- Runtime semantics of the generated `listTodos` script: select the
source list per the filter keyword (all to-dos when absent), apply the
status condition, apply the substring search over title and notes, and
emit id/title/completed rows in host order. -/
def listTodosScript (host : List HostTodo) (filter : Option TodoFilter)
    (status : Option TodoStatus) (searchText : Option String) : List TodoSummary :=
  (((match filter with
      | none => host
      | some f => host.filter (fun t => t.list == f) : List HostTodo)).filter
    (fun (t : HostTodo) =>
      (match status with
        | none => true
        | some s => t.status == s) &&
      (match searchText with
        | none => true
        | some q => strContains t.title q || strContains t.notes q))).map
    (fun (t : HostTodo) => ⟨t.id, t.title, t.status == TodoStatus.completed⟩)

/-- Parameters of `TodosTools.listTodos` (the `projectId`/`areaId`/`tags`
parameters are accepted but applied nowhere in the source). -/
structure TodosListParams where
  filter : Option TodoFilter
  status : Option TodoStatus
  searchText : Option String
  limit : Option Nat
  offset : Option Nat
deriving DecidableEq, Repr

/-- `TodosTools.listTodos`: run the script, then paginate with
`slice(offset, offset + limit)` only when an offset or limit was given
(offset defaulting to 0, limit to the result length). -/
def todosList (host : List HostTodo) (p : TodosListParams) : List TodoSummary :=
  let todos := listTodosScript host p.filter p.status p.searchText
  match p.offset, p.limit with
  | none, none => todos
  | o, l => (todos.drop (o.getD 0)).take (l.getD todos.length)

/-- Result of `todos_create`. -/
structure TodosCreateResult where
  success : Bool
  id : String
deriving DecidableEq, Repr

/-- The creation-recovery protocol of `TodosTools.createTodo`, applied to
the host state visible after the activation and the configured delays:
narrow search (`searchText` = title, open status, limit 10) filtered to
exact title matches, first hit wins; otherwise, after the extra wait, a
broad inbox search (open, limit 50) filtered client-side for the exact
title; otherwise success with the sentinel id "unknown". -/
def createTodoRecoverResult (host : List HostTodo) (title : String) : TodosCreateResult :=
  let searchResult :=
    (todosList host ⟨none, some TodoStatus.opened, some title, some 10, none⟩).filter
      (fun todo => todo.title == title)
  match searchResult with
  | t :: _ => ⟨true, t.id⟩
  | [] =>
    let broad := todosList host ⟨some TodoFilter.inbox, some TodoStatus.opened, none, some 50, none⟩
    match broad.find? (fun todo => todo.title == title) with
    | some t => ⟨true, t.id⟩
    | none => ⟨true, "unknown"⟩

/-! ### The checklist-item read channel (`queryDatabase` /
`getChecklistItems` in src/utils/database.ts) -/

/-- What the spawned sqlite3 process does: exit with a code and output,
fail to spawn, or exceed the 10-second timer. -/
inductive ProcOutcome where
  | exited (code : Int) (stdout : String) (stderr : String)
  | spawnFailed (msg : String)
  | timedOut
deriving DecidableEq, Repr

/-- `queryDatabase`: maps the process outcome to a resolved stdout (trimmed)
or a rejection, with a distinct error message per failure kind. -/
def queryDatabase : ProcOutcome → Except String String
  | ProcOutcome.timedOut => Except.error "SQLite query timed out after 10s"
  | ProcOutcome.spawnFailed m => Except.error ("Failed to spawn sqlite3: " ++ m)
  | ProcOutcome.exited code out err =>
    if code ≠ 0 then Except.error ("sqlite3 exited with code " ++ toString code ++ ": " ++ err)
    else Except.ok out.trim

/-- A parsed checklist row. -/
structure ChecklistItemRow where
  id : String
  title : String
  completed : Bool
deriving DecidableEq, Repr

/-- One tab-separated output line (missing fields default to the empty
string; `completed` is `status === '3'`). -/
def parseChecklistRow (line : String) : ChecklistItemRow :=
  let parts := line.splitOn "\t"
  ⟨parts.getD 0 "", parts.getD 1 "", parts.getD 2 "" == "3"⟩

/-- `getChecklistItems`: parse the query output; any `queryDatabase` error
is caught, logged, and turned into the empty list. -/
def getChecklistItems (outcome : ProcOutcome) : List ChecklistItemRow :=
  match queryDatabase outcome with
  | Except.ok output =>
    if output = "" then [] else (output.splitOn "\n").map parseChecklistRow
  | Except.error _ => []

/-! ## Lemmas and claim theorems -/

/-- Escaping never produces the empty character list from a non-empty one. -/
theorem escapeStringChars_eq_nil {l : List Char} (h : escapeStringChars l = []) : l = [] := by
  cases l with
  | nil => rfl
  | cons c cs =>
    exfalso
    revert h
    simp only [escapeStringChars]
    split_ifs <;> simp

/-- The inverse parser undoes the escaper on character lists. -/
theorem unescape_escape (l : List Char) :
    unescapeStringChars (escapeStringChars l) = l := by
  induction l with
  | nil => rfl
  | cons c cs ih =>
    by_cases h1 : c = '\\'
    · subst h1
      have h : unescapeStringChars (escapeStringChars ('\\' :: cs)) =
          '\\' :: unescapeStringChars (escapeStringChars cs) := rfl
      rw [h, ih]
    · by_cases h2 : c = '"'
      · subst h2
        have h : unescapeStringChars (escapeStringChars ('"' :: cs)) =
            '"' :: unescapeStringChars (escapeStringChars cs) := rfl
        rw [h, ih]
      · by_cases h3 : c = '\n'
        · subst h3
          have h : unescapeStringChars (escapeStringChars ('\n' :: cs)) =
              '\n' :: unescapeStringChars (escapeStringChars cs) := rfl
          rw [h, ih]
        · have hesc : escapeStringChars (c :: cs) = c :: escapeStringChars cs := by
            simp only [escapeStringChars, if_neg h1, if_neg h2, if_neg h3]
          rw [hesc]
          cases hcs : escapeStringChars cs with
          | nil =>
            have : cs = [] := escapeStringChars_eq_nil hcs
            subst this
            rfl
          | cons d rest =>
            simp only [unescapeStringChars, if_neg h1]
            rw [← hcs, ih]

/-- C5: for every string containing a double quote, a backslash, or a
newline, escaping it for interpolation into a generated AppleScript string
literal and then parsing it back with the inverse unescaper reproduces the
original string exactly. -/
theorem claim_C5_escape_roundtrip (s : String)
    (h : '"' ∈ s.data ∨ '\\' ∈ s.data ∨ '\n' ∈ s.data) :
    unescapeString (escapeString s) = s := by
  cases s with
  | mk data =>
    show String.mk (unescapeStringChars (escapeStringChars data)) = String.mk data
    rw [unescape_escape]

/-- Witness for C5 at the concrete string `a"b\c` + newline + `d`. -/
theorem claim_C5_escape_roundtrip_witness :
    ('"' ∈ ("a\"b\\c\nd" : String).data ∨ '\\' ∈ ("a\"b\\c\nd" : String).data ∨
      '\n' ∈ ("a\"b\\c\nd" : String).data) ∧
    unescapeString (escapeString ("a\"b\\c\nd")) = "a\"b\\c\nd" :=
  ⟨Or.inl (by decide), claim_C5_escape_roundtrip ("a\"b\\c\nd") (Or.inl (by decide))⟩

/-- Trimming eats a leading space. -/
theorem trimSpacesChars_cons_space (l : List Char) :
    trimSpacesChars (' ' :: l) = trimSpacesChars l := by
  simp [trimSpacesChars, dropLeadingSpaces]

/-- Scanning a comma-free chunk just accumulates it. -/
theorem splitCommaAux_append (x : List Char) (rest acc : List Char) (h : ',' ∉ x) :
    splitCommaAux (x ++ rest) acc = splitCommaAux rest (x.reverse ++ acc) := by
  induction x generalizing acc with
  | nil => simp
  | cons c cs ih =>
    have hc : c ≠ ',' := fun hc => h (hc ▸ List.mem_cons_self c cs)
    have hcs : ',' ∉ cs := fun hm => h (List.mem_cons_of_mem c hm)
    simp only [List.cons_append, splitCommaAux, if_neg hc]
    show splitCommaAux (cs ++ rest) (c :: acc) = _
    rw [ih (c :: acc) hcs]
    congr 1
    simp

/-- Splitting the ", "-joined tag list recovers the items, each later item
carrying the separating space in front. -/
theorem splitCommaAux_join (x : List Char) (xs : List (List Char)) (acc : List Char)
    (hx : ',' ∉ x) (hxs : ∀ y ∈ xs, ',' ∉ y) :
    splitCommaAux (joinCommaSpace (x :: xs)) acc =
      (acc.reverse ++ x) :: xs.map (fun y => ' ' :: y) := by
  induction xs generalizing x acc with
  | nil =>
    show splitCommaAux x acc = [acc.reverse ++ x]
    have h := splitCommaAux_append x [] acc hx
    simp only [List.append_nil] at h
    simp [h, splitCommaAux]
  | cons y ys ih =>
    have hy : ',' ∉ y := hxs y (List.mem_cons_self y ys)
    have hys : ∀ z ∈ ys, ',' ∉ z := fun z hz => hxs z (List.mem_cons_of_mem y hz)
    show splitCommaAux (x ++ ',' :: ' ' :: joinCommaSpace (y :: ys)) acc = _
    rw [splitCommaAux_append x _ acc hx]
    show (x.reverse ++ acc).reverse :: splitCommaAux (' ' :: joinCommaSpace (y :: ys)) [] = _
    have hsp : (' ' : Char) ≠ ',' := by decide
    show (x.reverse ++ acc).reverse ::
        (if (' ' : Char) = ',' then ([] : List Char).reverse :: splitCommaAux (joinCommaSpace (y :: ys)) []
         else splitCommaAux (joinCommaSpace (y :: ys)) [' ']) = _
    rw [if_neg hsp, ih y [' '] hy hys]
    simp

/-- `removeTag` on an empty stored tag text is a no-op. -/
theorem removeTagChars_nil (t : List Char) : removeTagChars [] t = [] := by
  by_cases h : ([] : List Char) = t
  · subst h
    rfl
  · simp [removeTagChars, splitCommaAux, trimSpacesChars, dropLeadingSpaces,
      joinCommaSpace, h]

/-- One `removeTag` call on a canonically joined tag list filters out the
exact matches and rejoins, preserving order. -/
theorem removeTagChars_join (ts : List (List Char)) (t : List Char)
    (htrim : ∀ u ∈ ts, trimSpacesChars u = u)
    (hcomma : ∀ u ∈ ts, ',' ∉ u) (hts : ts ≠ []) :
    removeTagChars (joinCommaSpace ts) t =
      joinCommaSpace (ts.filter (fun u => decide (u ≠ t))) := by
  obtain ⟨x, xs, rfl⟩ : ∃ x xs, ts = x :: xs := by
    cases ts with
    | nil => exact absurd rfl hts
    | cons x xs => exact ⟨x, xs, rfl⟩
  have hx : ',' ∉ x := hcomma x (List.mem_cons_self x xs)
  have hxs : ∀ y ∈ xs, ',' ∉ y := fun y hy => hcomma y (List.mem_cons_of_mem x hy)
  unfold removeTagChars
  rw [splitCommaAux_join x xs [] hx hxs]
  have hmap : ((List.reverse [] ++ x) :: xs.map (fun y => ' ' :: y)).map trimSpacesChars
      = x :: xs := by
    simp only [List.reverse_nil, List.nil_append, List.map_cons, List.map_map]
    rw [htrim x (List.mem_cons_self x xs)]
    congr 1
    have h2 : ∀ y ∈ xs, (trimSpacesChars ∘ fun y => ' ' :: y) y = id y := by
      intro y hy
      show trimSpacesChars (' ' :: y) = y
      rw [trimSpacesChars_cons_space]
      exact htrim y (List.mem_cons_of_mem x hy)
    rw [List.map_congr_left h2, List.map_id]
  rw [hmap]

/-- Folding `removeTag` over the removal list filters out every removal
target, preserving order. -/
theorem removeTagsChars_join (toRemove : List (List Char)) :
    ∀ ts : List (List Char), (∀ u ∈ ts, trimSpacesChars u = u) → (∀ u ∈ ts, ',' ∉ u) →
    removeTagsChars (joinCommaSpace ts) toRemove =
      joinCommaSpace (ts.filter (fun u => decide (u ∉ toRemove))) := by
  induction toRemove with
  | nil =>
    intro ts _ _
    simp [removeTagsChars]
  | cons t rest ih =>
    intro ts htrim hcomma
    show removeTagsChars (removeTagChars (joinCommaSpace ts) t) rest = _
    by_cases hts : ts = []
    · subst hts
      have hj : joinCommaSpace ([] : List (List Char)) = [] := rfl
      rw [hj, removeTagChars_nil]
      have h0 := ih [] (by simp) (by simp)
      rw [hj] at h0
      simpa using h0
    · rw [removeTagChars_join ts t htrim hcomma hts]
      have hsub : ∀ u ∈ ts.filter (fun u => decide (u ≠ t)), u ∈ ts := by
        intro u hu
        exact (List.mem_filter.mp hu).1
      rw [ih (ts.filter (fun u => decide (u ≠ t)))
        (fun u hu => htrim u (hsub u hu)) (fun u hu => hcomma u (hsub u hu))]
      rw [List.filter_filter]
      congr 1
      apply List.filter_congr
      intro u _
      by_cases h1 : u = t <;> by_cases h2 : u ∈ rest <;>
        simp [h1, h2, List.mem_cons]

/-- The join of a list headed by a non-empty tag is non-empty. -/
theorem joinCommaSpace_ne_nil (x : List Char) (xs : List (List Char)) (hx : x ≠ []) :
    joinCommaSpace (x :: xs) ≠ [] := by
  cases xs with
  | nil => simpa [joinCommaSpace] using hx
  | cons y ys => simp [joinCommaSpace]

/-- Comma count of a canonical join: one per separator. -/
theorem count_comma_join (ts : List (List Char)) (h : ∀ u ∈ ts, ',' ∉ u) (hts : ts ≠ []) :
    (joinCommaSpace ts).count ',' = ts.length - 1 := by
  induction ts with
  | nil => exact absurd rfl hts
  | cons x xs ih =>
    cases xs with
    | nil =>
      have hx : ',' ∉ x := h x (List.mem_cons_self x [])
      simpa [joinCommaSpace, List.count_eq_zero] using hx
    | cons y ys =>
      have hx : ',' ∉ x := h x (List.mem_cons_self x (y :: ys))
      have hrest : ∀ u ∈ y :: ys, ',' ∉ u := fun u hu => h u (List.mem_cons_of_mem x hu)
      have ihr := ih hrest (by simp)
      show (x ++ ',' :: ' ' :: joinCommaSpace (y :: ys)).count ',' = _
      rw [List.count_append]
      have hx0 : x.count ',' = 0 := List.count_eq_zero.mpr hx
      have hsp : ((' ' : Char) :: joinCommaSpace (y :: ys)).count ',' =
          (joinCommaSpace (y :: ys)).count ',' := by
        rw [List.count_cons]
        simp
      rw [List.count_cons]
      simp only [hx0, hsp, ihr]
      simp [Nat.succ_sub_one]

/-- A filter that changes a list shortens it. -/
theorem filter_length_lt {α : Type} (p : α → Bool) (l : List α)
    (h : l.filter p ≠ l) : (l.filter p).length < l.length := by
  have hsub : (l.filter p).Sublist l := List.filter_sublist l
  exact Nat.lt_of_le_of_ne hsub.length_le (fun heq => h (hsub.eq_of_length heq))

/-- Canonical joins of a changed filter differ from the original join. -/
theorem join_filter_ne (ts : List (List Char)) (p : List Char → Bool)
    (hcomma : ∀ u ∈ ts, ',' ∉ u) (hnil : ∀ u ∈ ts, u ≠ []) (hts : ts ≠ [])
    (hne : ts.filter p ≠ ts) :
    joinCommaSpace (ts.filter p) ≠ joinCommaSpace ts := by
  obtain ⟨x, xs, rfl⟩ : ∃ x xs, ts = x :: xs := by
    cases ts with
    | nil => exact absurd rfl hts
    | cons x xs => exact ⟨x, xs, rfl⟩
  cases hf : (x :: xs).filter p with
  | nil =>
    intro hcontra
    exact joinCommaSpace_ne_nil x xs (hnil x (List.mem_cons_self x xs)) hcontra.symm
  | cons z zs =>
    intro hcontra
    have hne2 : (x :: xs).filter p ≠ x :: xs := by
      rw [hf]
      rw [hf] at hne
      exact hne
    have hlt : ((x :: xs).filter p).length < (x :: xs).length :=
      filter_length_lt p (x :: xs) hne2
    rw [hf] at hlt
    have hcount1 : (joinCommaSpace (z :: zs)).count ',' = (z :: zs).length - 1 := by
      apply count_comma_join
      · intro u hu
        have : u ∈ (x :: xs).filter p := hf ▸ hu
        exact hcomma u (List.mem_filter.mp this).1
      · simp
    have hcount2 : (joinCommaSpace (x :: xs)).count ',' = (x :: xs).length - 1 :=
      count_comma_join _ hcomma (by simp)
    rw [hcontra, hcount2] at hcount1
    simp only [List.length_cons] at hlt hcount1
    omega

/-- C4: on a canonically stored tag set (", "-joined, trimmed, non-empty,
comma-free tag names), the emulated removal filters every removal target
out by exact match after trimming, preserves the order of the remaining
tags, and skips the host write-back exactly when no tag was removed. -/
theorem claim_C4_remove_tags (ts toRemove : List (List Char))
    (htrim : ∀ u ∈ ts, trimSpacesChars u = u)
    (hcomma : ∀ u ∈ ts, ',' ∉ u)
    (hnil : ∀ u ∈ ts, u ≠ [])
    (hts : ts ≠ []) :
    removeTagsChars (joinCommaSpace ts) toRemove =
      joinCommaSpace (ts.filter (fun u => decide (u ∉ toRemove))) ∧
    (applyRemoveTagsToItem (joinCommaSpace ts) toRemove = none ↔
      ts.filter (fun u => decide (u ∉ toRemove)) = ts) ∧
    (ts.filter (fun u => decide (u ∉ toRemove)) ≠ ts →
      applyRemoveTagsToItem (joinCommaSpace ts) toRemove =
        some (joinCommaSpace (ts.filter (fun u => decide (u ∉ toRemove))))) := by
  obtain ⟨x, xs, rfl⟩ : ∃ x xs, ts = x :: xs := by
    cases ts with
    | nil => exact absurd rfl hts
    | cons x xs => exact ⟨x, xs, rfl⟩
  have hmain := removeTagsChars_join toRemove (x :: xs) htrim hcomma
  have hjoin_ne : joinCommaSpace (x :: xs) ≠ [] :=
    joinCommaSpace_ne_nil x xs (hnil x (List.mem_cons_self x xs))
  refine ⟨hmain, ?_, ?_⟩
  · unfold applyRemoveTagsToItem
    rw [if_neg hjoin_ne]
    simp only [hmain]
    constructor
    · intro hnone
      by_contra hne
      have := join_filter_ne (x :: xs) _ hcomma hnil (by simp) hne
      rw [if_neg this] at hnone
      exact Option.some_ne_none _ hnone
    · intro heq
      rw [heq, if_pos rfl]
  · intro hne
    unfold applyRemoveTagsToItem
    rw [if_neg hjoin_ne]
    simp only [hmain]
    rw [if_neg (join_filter_ne (x :: xs) _ hcomma hnil (by simp) hne)]

/-- Witness for C4 at the claim's concrete examples:
removing "home" from the stored set work, home, urgent keeps work, urgent
in order, and removing "missing" from work skips the write-back. -/
theorem claim_C4_remove_tags_witness :
    removeTagsChars (joinCommaSpace [String.data "work", String.data "home",
        String.data "urgent"]) [String.data "home"] =
      joinCommaSpace [String.data "work", String.data "urgent"] ∧
    applyRemoveTagsToItem (joinCommaSpace [String.data "work"])
        [String.data "missing"] = none := by
  constructor
  · exact (claim_C4_remove_tags
      [String.data "work", String.data "home", String.data "urgent"]
      [String.data "home"] (by decide) (by decide) (by decide)
      (by decide)).1.trans (by decide)
  · exact (claim_C4_remove_tags [String.data "work"] [String.data "missing"]
      (by decide) (by decide) (by decide) (by decide)).2.1.mpr (by decide)

/-- C2: an unparseable date-time input normalizes to `none` (the attribute
is omitted, not an error); a parseable one is classified, on a system whose
local time zone is UTC (offset 0, as the claim's examples presuppose), by
comparing its calendar date with the current date: equal gives "today", the
current date plus one day gives "tomorrow", anything else the ISO calendar
date.  With the system clock on 2025-06-10, the claim's four concrete
examples evaluate as stated. -/
theorem claim_C2_date_normalization :
    (∀ s : String, parseIsoDateString s = none →
      ∀ tzOffsetMin nowMs : Int, formatDateForUrl tzOffsetMin nowMs (some s) = none) ∧
    (∀ (nowMs ms : Int) (s : String), s ≠ "" → parseIsoDateString s = some ms →
      formatDateForUrl 0 nowMs (some s) =
        (let inputDay := civilFromDays (Int.fdiv ms msPerDay)
         let today := civilFromDays (Int.fdiv nowMs msPerDay)
         if inputDay = today then some "today"
         else if inputDay = civilFromDays (daysFromCivil today.1 today.2.1 today.2.2 + 1) then
           some "tomorrow"
         else some (isoDateString inputDay))) ∧
    formatDateForUrl 0 (daysFromCivil 2025 6 10 * msPerDay + 9 * 3600000)
      (some "2025-06-10T09:00:00Z") = some "today" ∧
    formatDateForUrl 0 (daysFromCivil 2025 6 10 * msPerDay + 9 * 3600000)
      (some "2025-06-11T00:00:00Z") = some "tomorrow" ∧
    formatDateForUrl 0 (daysFromCivil 2025 6 10 * msPerDay + 9 * 3600000)
      (some "2025-12-25") = some "2025-12-25" ∧
    formatDateForUrl 0 (daysFromCivil 2025 6 10 * msPerDay + 9 * 3600000)
      (some "hello world") = none := by
  refine ⟨?_, ?_, by decide, by decide, by decide, by decide⟩
  · intro s hs tzOffsetMin nowMs
    by_cases h : s = ""
    · simp [formatDateForUrl, h]
    · simp [formatDateForUrl, h, hs]
  · intro nowMs ms s hne hp
    simp only [formatDateForUrl, if_neg hne, hp, localCivilOfMs, zero_mul, add_zero]

/-- Witness for C2: unparseable input at an arbitrary clock and offset, and
a parseable off-day input on the 2025-06-10 system clock. -/
theorem claim_C2_date_normalization_witness :
    formatDateForUrl 3 12345 (some ("nope")) = none ∧
    formatDateForUrl 0 1749546000000 (some ("2025-06-12T00:00:00Z")) = some "2025-06-12" :=
  ⟨claim_C2_date_normalization.1 ("nope") (by decide) 3 12345,
   (claim_C2_date_normalization.2.1 1749546000000 1749686400000 ("2025-06-12T00:00:00Z")
     (by decide) (by decide)).trans (by decide)⟩

/-- An entry survives the delete-undefined pass iff the raw object holds
its key with a defined value. -/
theorem mem_attrs_iff (raw : List (String × Option AttrValue)) (k : String) (v : AttrValue) :
    (k, v) ∈ raw.filterMap (fun p => p.2.map (fun w => (p.1, w))) ↔ (k, some v) ∈ raw := by
  rw [List.mem_filterMap]
  constructor
  · rintro ⟨⟨k2, o⟩, hmem, heq⟩
    cases o with
    | none => simp at heq
    | some w =>
      have hk : k2 = k ∧ w = v := by
        simpa using heq
      rw [← hk.1, ← hk.2] at *
      exact hmem
  · intro h
    exact ⟨(k, some v), h, rfl⟩

/-- A key appears in the encoded attribute object iff the raw object holds
it with a defined value. -/
theorem mem_attr_keys_iff (raw : List (String × Option AttrValue)) (k : String) :
    k ∈ (raw.filterMap (fun p => p.2.map (fun w => (p.1, w)))).map Prod.fst ↔
      ∃ v, (k, some v) ∈ raw := by
  rw [List.mem_map]
  constructor
  · rintro ⟨⟨k2, v⟩, hmem, hk⟩
    cases hk
    exact ⟨v, (mem_attrs_iff raw k2 v).mp hmem⟩
  · rintro ⟨v, hv⟩
    exact ⟨(k, v), (mem_attrs_iff raw k v).mpr hv, rfl⟩

/-- C3: the set / clear / unchanged three-state distinction survives the
structured-document encoding of `updateTodo`: a key absent from the intent
(undefined) never appears in the emitted attribute object, and an explicit
null always appears as the host's empty-string clear sentinel for the
when-date, deadline and list-id attributes. -/
theorem claim_C3_update_three_state (tzOffsetMin nowMs : Int) (authToken : Option String)
    (params : UpdateTodoParams) :
    (params.title = none →
      "title" ∉ (updateTodoAttributes tzOffsetMin nowMs authToken params).map Prod.fst) ∧
    (params.notes = none →
      "notes" ∉ (updateTodoAttributes tzOffsetMin nowMs authToken params).map Prod.fst) ∧
    (params.whenDate = none →
      "when" ∉ (updateTodoAttributes tzOffsetMin nowMs authToken params).map Prod.fst) ∧
    (params.deadline = none →
      "deadline" ∉ (updateTodoAttributes tzOffsetMin nowMs authToken params).map Prod.fst) ∧
    (params.tags = none →
      "tags" ∉ (updateTodoAttributes tzOffsetMin nowMs authToken params).map Prod.fst) ∧
    (params.completed = none →
      "completed" ∉ (updateTodoAttributes tzOffsetMin nowMs authToken params).map Prod.fst) ∧
    (params.canceled = none →
      "canceled" ∉ (updateTodoAttributes tzOffsetMin nowMs authToken params).map Prod.fst) ∧
    (params.listId = none →
      "list-id" ∉ (updateTodoAttributes tzOffsetMin nowMs authToken params).map Prod.fst) ∧
    (params.whenDate = some none →
      ("when", AttrValue.str "") ∈ updateTodoAttributes tzOffsetMin nowMs authToken params) ∧
    (params.deadline = some none →
      ("deadline", AttrValue.str "") ∈ updateTodoAttributes tzOffsetMin nowMs authToken params) ∧
    (params.listId = some none →
      ("list-id", AttrValue.str "") ∈ updateTodoAttributes tzOffsetMin nowMs authToken params) := by
  refine ⟨?_, ?_, ?_, ?_, ?_, ?_, ?_, ?_, ?_, ?_, ?_⟩ <;> intro h
  case _ =>
    rw [updateTodoAttributes, mem_attr_keys_iff]
    rintro ⟨v, hv⟩
    simp [updateTodoRawAttributes, h] at hv
  case _ =>
    rw [updateTodoAttributes, mem_attr_keys_iff]
    rintro ⟨v, hv⟩
    simp [updateTodoRawAttributes, h] at hv
  case _ =>
    rw [updateTodoAttributes, mem_attr_keys_iff]
    rintro ⟨v, hv⟩
    simp [updateTodoRawAttributes, encodeDateField, formatDateForUrl, h] at hv
  case _ =>
    rw [updateTodoAttributes, mem_attr_keys_iff]
    rintro ⟨v, hv⟩
    simp [updateTodoRawAttributes, encodeDateField, formatDateForUrl, h] at hv
  case _ =>
    rw [updateTodoAttributes, mem_attr_keys_iff]
    rintro ⟨v, hv⟩
    simp [updateTodoRawAttributes, h] at hv
  case _ =>
    rw [updateTodoAttributes, mem_attr_keys_iff]
    rintro ⟨v, hv⟩
    simp [updateTodoRawAttributes, h] at hv
  case _ =>
    rw [updateTodoAttributes, mem_attr_keys_iff]
    rintro ⟨v, hv⟩
    simp [updateTodoRawAttributes, h] at hv
  case _ =>
    rw [updateTodoAttributes, mem_attr_keys_iff]
    rintro ⟨v, hv⟩
    simp [updateTodoRawAttributes, encodeClearableString, h] at hv
  case _ =>
    rw [updateTodoAttributes, mem_attrs_iff]
    simp [updateTodoRawAttributes, encodeDateField, h]
  case _ =>
    rw [updateTodoAttributes, mem_attrs_iff]
    simp [updateTodoRawAttributes, encodeDateField, h]
  case _ =>
    rw [updateTodoAttributes, mem_attrs_iff]
    simp [updateTodoRawAttributes, encodeClearableString, h]

/-- Witness for C3 at a concrete intent that clears when-date, deadline and
list-id, leaves the title unchanged, and sets the notes. -/
theorem claim_C3_update_three_state_witness :
    ("when", AttrValue.str "") ∈ updateTodoAttributes 0 0 none
      (UpdateTodoParams.mk none (some "n") (some none) (some none) none none none
        (some none)) ∧
    ("deadline", AttrValue.str "") ∈ updateTodoAttributes 0 0 none
      (UpdateTodoParams.mk none (some "n") (some none) (some none) none none none
        (some none)) ∧
    ("list-id", AttrValue.str "") ∈ updateTodoAttributes 0 0 none
      (UpdateTodoParams.mk none (some "n") (some none) (some none) none none none
        (some none)) ∧
    "title" ∉ (updateTodoAttributes 0 0 none
      (UpdateTodoParams.mk none (some "n") (some none) (some none) none none none
        (some none))).map Prod.fst :=
  ⟨(claim_C3_update_three_state 0 0 none _).2.2.2.2.2.2.2.2.1 rfl,
   (claim_C3_update_three_state 0 0 none _).2.2.2.2.2.2.2.2.2.1 rfl,
   (claim_C3_update_three_state 0 0 none _).2.2.2.2.2.2.2.2.2.2 rfl,
   (claim_C3_update_three_state 0 0 none _).1 rfl⟩

/-- The `+`-rewrite pass leaves no `+` behind. -/
theorem plusToPercent20_no_plus (l : List Char) : '+' ∉ plusToPercent20 l := by
  intro hmem
  induction l with
  | nil => simp [plusToPercent20] at hmem
  | cons c cs ih =>
    simp only [plusToPercent20] at hmem
    by_cases h : c = '+'
    · rw [if_pos h] at hmem
      simp only [List.mem_cons] at hmem
      rcases hmem with h1 | h1 | h1 | h1
      · exact absurd h1 (by decide)
      · exact absurd h1 (by decide)
      · exact absurd h1 (by decide)
      · exact ih h1
    · rw [if_neg h] at hmem
      simp only [List.mem_cons] at hmem
      rcases hmem with h1 | h1
      · exact h h1.symm
      · exact ih h1

/-- Serialization keeps the parameter's key. -/
theorem serializeParam_fst (p : String × ParamValue) (q : String × String)
    (h : serializeParam p = some q) : q.1 = p.1 := by
  obtain ⟨k, v⟩ := p
  cases v <;> simp [serializeParam] at h <;> simp [← h]

/-- With pairwise-distinct keys, a key determines its value in the map. -/
theorem key_unique {α : Type} (params : List (String × α))
    (hnd : (params.map Prod.fst).Nodup) (k : String) (a b : α)
    (ha : (k, a) ∈ params) (hb : (k, b) ∈ params) : a = b := by
  induction params with
  | nil => simp at ha
  | cons p ps ih =>
    rw [List.map_cons, List.nodup_cons] at hnd
    rcases List.mem_cons.mp ha with ha1 | ha1 <;> rcases List.mem_cons.mp hb with hb1 | hb1
    · have hab : (k, a) = (k, b) := ha1.trans hb1.symm
      exact (Prod.ext_iff.mp hab).2
    · exfalso
      apply hnd.1
      rw [← ha1]
      exact List.mem_map.mpr ⟨(k, b), hb1, rfl⟩
    · exfalso
      apply hnd.1
      rw [← hb1]
      exact List.mem_map.mpr ⟨(k, a), ha1, rfl⟩
    · exact ih hnd.2 ha1 hb1

/-- C10: for every parameter map, the simple-URL builder emits no `+`
character (spaces travel as %20), omits null/undefined-valued keys from the
serialized pairs, serializes arrays as a single comma-joined value, and
serializes booleans as the strings "true"/"false". -/
theorem claim_C10_buildUrl_invariants (authToken : Option String)
    (operation : Things3Operation) (params : List (String × ParamValue)) :
    ('+' ∉ (buildUrl authToken operation params).data) ∧
    ((params.map Prod.fst).Nodup →
      ∀ k v, (k, v) ∈ params → v = ParamValue.null ∨ v = ParamValue.undef →
        k ∉ (params.filterMap serializeParam).map Prod.fst) ∧
    (∀ k l, (k, ParamValue.arr l) ∈ params →
      (k, String.intercalate "," l) ∈ buildUrlPairs authToken params) ∧
    (∀ k b, (k, ParamValue.boolean b) ∈ params →
      (k, if b then "true" else "false") ∈ buildUrlPairs authToken params) := by
  refine ⟨?_, ?_, ?_, ?_⟩
  · unfold buildUrl
    have hbase : '+' ∉ ("things:///" ++ opName operation).data := by
      rw [String.data_append]
      intro hmem
      rcases List.mem_append.mp hmem with h | h
      · exact absurd h (by decide)
      · cases operation <;> exact absurd h (by decide)
    by_cases hq : plusToPercent20 (serializeQuery (buildUrlPairs authToken params)) = []
    · rw [if_pos hq]
      exact hbase
    · rw [if_neg hq]
      rw [String.data_append, String.data_append]
      intro hmem
      rcases List.mem_append.mp hmem with h | h
      · rcases List.mem_append.mp h with h2 | h2
        · exact hbase h2
        · exact absurd h2 (by decide)
      · exact plusToPercent20_no_plus _ h
  · intro hnd k v hmem hnull
    rw [List.mem_map]
    rintro ⟨⟨k2, w⟩, hw, hk⟩
    cases hk
    rw [List.mem_filterMap] at hw
    obtain ⟨⟨k3, v3⟩, hmem3, hser⟩ := hw
    have hk3 : k3 = k2 := (serializeParam_fst _ _ hser).symm
    subst hk3
    have hv3 : v3 = v := key_unique params hnd k3 v3 v hmem3 hmem
    subst hv3
    rcases hnull with h | h <;> rw [h] at hser <;> simp [serializeParam] at hser
  · intro k l hmem
    apply List.mem_append_right
    rw [List.mem_filterMap]
    exact ⟨(k, ParamValue.arr l), hmem, rfl⟩
  · intro k b hmem
    apply List.mem_append_right
    rw [List.mem_filterMap]
    exact ⟨(k, ParamValue.boolean b), hmem, rfl⟩

/-- Witness for C10 at a concrete parameter map holding an array, a
boolean, and a null. -/
theorem claim_C10_buildUrl_invariants_witness :
    ("tags", String.intercalate "," ["a", "b"]) ∈
      buildUrlPairs none [("tags", ParamValue.arr ["a", "b"]),
        ("done", ParamValue.boolean true), ("skip", ParamValue.null)] ∧
    ("done", if true then "true" else "false") ∈
      buildUrlPairs none [("tags", ParamValue.arr ["a", "b"]),
        ("done", ParamValue.boolean true), ("skip", ParamValue.null)] ∧
    "skip" ∉ (([("tags", ParamValue.arr ["a", "b"]),
        ("done", ParamValue.boolean true),
        ("skip", ParamValue.null)]).filterMap serializeParam).map Prod.fst :=
  ⟨(claim_C10_buildUrl_invariants none Things3Operation.add _).2.2.1 _ _ (by decide),
   (claim_C10_buildUrl_invariants none Things3Operation.add _).2.2.2 _ _ (by decide),
   (claim_C10_buildUrl_invariants none Things3Operation.add _).2.1 (by decide) _
     ParamValue.null (by decide) (Or.inl rfl)⟩

/-- A non-empty pair list serializes to the first encoded key, `=`, and a
remainder. -/
theorem serializeQuery_cons (p : String × String) (ps : List (String × String)) :
    ∃ rest, serializeQuery (p :: ps) = formEncodeString p.1 ++ '=' :: rest := by
  cases ps with
  | nil => exact ⟨formEncodeString p.2, rfl⟩
  | cons q qs =>
    exact ⟨formEncodeString p.2 ++ '&' :: serializeQuery (q :: qs), by
      simp [serializeQuery]⟩

/-- The `+`-rewrite maps non-empty to non-empty. -/
theorem plusToPercent20_ne_nil (l : List Char) (h : l ≠ []) : plusToPercent20 l ≠ [] := by
  cases l with
  | nil => exact absurd rfl h
  | cons c cs =>
    simp only [plusToPercent20]
    by_cases hc : c = '+'
    · rw [if_pos hc]
      simp
    · rw [if_neg hc]
      simp

/-- C9: when the environment provides an auth token, the token is attached
to every create URL and every structured update document the encoder emits;
when it is absent, a plain create still produces a well-formed
`things:///add?...` URL carrying its title parameter — token absence never
blocks a non-privileged create. -/
theorem claim_C9_auth_token (tzOffsetMin nowMs : Int) :
    (∀ t : String, ∀ params : List (String × ParamValue),
      ("auth-token", t) ∈ buildUrlPairs (some t) params) ∧
    (∀ t : String, ∀ p : CreateTodoParams,
      ("auth-token", t) ∈ buildUrlPairs (some t) (createTodoUrlParams tzOffsetMin nowMs p)) ∧
    (∀ t id : String, ∀ params : UpdateTodoParams,
      ("auth-token", AttrValue.str t) ∈
        (updateTodoItem tzOffsetMin nowMs (some t) id params).attributes) ∧
    (∀ t jsonData : String, ∃ front : String,
      buildJsonUrl (some t) jsonData = front ++ "&auth-token=" ++ t) ∧
    (∀ p : CreateTodoParams, ∃ q : String,
      createTodoUrl tzOffsetMin nowMs none p = "things:///add?" ++ q) ∧
    (∀ p : CreateTodoParams,
      ("title", p.title) ∈ buildUrlPairs none (createTodoUrlParams tzOffsetMin nowMs p)) := by
  refine ⟨?_, ?_, ?_, ?_, ?_, ?_⟩
  · intro t params
    exact List.mem_append_left _ (List.mem_singleton.mpr rfl)
  · intro t p
    exact List.mem_append_left _ (List.mem_singleton.mpr rfl)
  · intro t id params
    show ("auth-token", AttrValue.str t) ∈ updateTodoAttributes tzOffsetMin nowMs (some t) params
    rw [updateTodoAttributes, mem_attrs_iff]
    simp [updateTodoRawAttributes]
  · intro t jsonData
    exact ⟨"things:///json?data=" ++ encodeURIComponentStr jsonData, by
      simp [buildJsonUrl, String.append_assoc]⟩
  · intro p
    unfold createTodoUrl buildUrl
    have hpairs : buildUrlPairs none (createTodoUrlParams tzOffsetMin nowMs p) =
        ("title", p.title) ::
          ((createTodoUrlParams tzOffsetMin nowMs p).tail.filterMap serializeParam) := by
      rfl
    obtain ⟨rest, hrest⟩ := serializeQuery_cons ("title", p.title)
      ((createTodoUrlParams tzOffsetMin nowMs p).tail.filterMap serializeParam)
    have hne : serializeQuery (buildUrlPairs none (createTodoUrlParams tzOffsetMin nowMs p)) ≠ [] := by
      rw [hpairs, hrest]
      intro hcontra
      rcases List.append_eq_nil.mp hcontra with ⟨h1, h2⟩
      exact List.cons_ne_nil _ _ h2
    have hq := plusToPercent20_ne_nil _ hne
    rw [if_neg hq]
    exact ⟨String.mk (plusToPercent20 (serializeQuery
      (buildUrlPairs none (createTodoUrlParams tzOffsetMin nowMs p)))), rfl⟩
  · intro p
    apply List.mem_append_right
    rw [List.mem_filterMap]
    exact ⟨("title", ParamValue.str p.title), List.mem_cons_self _ _, rfl⟩

/-- C1: the post-create recovery search runs in two stages.  The narrow
stage searches open items with a result cap of 10 and keeps only exact
title matches — every narrow hit is an open host item with the requested
title — and when one or more match, the first match's id is returned as
success.  Otherwise the broader stage lists the inbox (open, cap 50) and
filters client-side for exact title equality; and when that also finds
nothing, the operation still returns success with the sentinel id
"unknown". -/
theorem claim_C1_create_recovery (host : List HostTodo) (title : String) :
    (∀ t, t ∈ (todosList host ⟨none, some TodoStatus.opened, some title, some 10, none⟩).filter
        (fun todo => todo.title == title) →
      t.title = title ∧
        ∃ h ∈ host, h.id = t.id ∧ h.title = t.title ∧ h.status = TodoStatus.opened) ∧
    ((todosList host ⟨none, some TodoStatus.opened, some title, some 10, none⟩).filter
        (fun todo => todo.title == title)).length ≤ 10 ∧
    (∀ t ts, (todosList host ⟨none, some TodoStatus.opened, some title, some 10, none⟩).filter
        (fun todo => todo.title == title) = t :: ts →
      createTodoRecoverResult host title = ⟨true, t.id⟩) ∧
    ((todosList host ⟨none, some TodoStatus.opened, some title, some 10, none⟩).filter
        (fun todo => todo.title == title) = [] →
      ∀ t, (todosList host ⟨some TodoFilter.inbox, some TodoStatus.opened, none, some 50,
          none⟩).find? (fun todo => todo.title == title) = some t →
        createTodoRecoverResult host title = ⟨true, t.id⟩) ∧
    ((todosList host ⟨none, some TodoStatus.opened, some title, some 10, none⟩).filter
        (fun todo => todo.title == title) = [] →
      (todosList host ⟨some TodoFilter.inbox, some TodoStatus.opened, none, some 50,
          none⟩).find? (fun todo => todo.title == title) = none →
      createTodoRecoverResult host title = ⟨true, "unknown"⟩) := by
  refine ⟨?_, ?_, ?_, ?_, ?_⟩
  · intro t ht
    rw [List.mem_filter] at ht
    obtain ⟨hmem, htitle⟩ := ht
    refine ⟨by simpa using htitle, ?_⟩
    have hmem2 : t ∈ listTodosScript host none (some TodoStatus.opened) (some title) := by
      have : todosList host ⟨none, some TodoStatus.opened, some title, some 10, none⟩ =
          ((listTodosScript host none (some TodoStatus.opened) (some title)).drop 0).take 10 :=
        rfl
      rw [this] at hmem
      exact List.mem_of_mem_drop (List.mem_of_mem_take hmem)
    rw [listTodosScript, List.mem_map] at hmem2
    obtain ⟨h, hh, heq⟩ := hmem2
    rw [List.mem_filter] at hh
    obtain ⟨hhost, hcond⟩ := hh
    have hstatus : h.status = TodoStatus.opened := by
      have := (Bool.and_eq_true _ _ |>.mp hcond).1
      simpa using this
    refine ⟨h, hhost, ?_, ?_, hstatus⟩
    · rw [← heq]
    · rw [← heq]
  · have : todosList host ⟨none, some TodoStatus.opened, some title, some 10, none⟩ =
        ((listTodosScript host none (some TodoStatus.opened) (some title)).drop 0).take 10 :=
      rfl
    rw [this]
    have h1 := List.length_filter_le (fun todo => todo.title == title)
      (((listTodosScript host none (some TodoStatus.opened) (some title)).drop 0).take 10)
    have h2 : (((listTodosScript host none (some TodoStatus.opened)
        (some title)).drop 0).take 10).length ≤ 10 := by
      rw [List.length_take]
      exact Nat.min_le_left _ _
    exact le_trans h1 h2
  · intro t ts hn
    unfold createTodoRecoverResult
    rw [hn]
  · intro hn t hfind
    unfold createTodoRecoverResult
    rw [hn]
    simp only [hfind]
  · intro hn hfind
    unfold createTodoRecoverResult
    rw [hn]
    simp only [hfind]

/-- Witness for C1: a host holding one open inbox item titled "Buy milk" is
recovered through the narrow stage; an empty host falls through both stages
to the "unknown" sentinel. -/
theorem claim_C1_create_recovery_witness :
    createTodoRecoverResult [HostTodo.mk "T1" "Buy milk" "" TodoStatus.opened
      TodoFilter.inbox] ("Buy milk") = ⟨true, "T1"⟩ ∧
    createTodoRecoverResult [] ("Buy milk") = ⟨true, "unknown"⟩ :=
  ⟨(claim_C1_create_recovery [HostTodo.mk "T1" "Buy milk" "" TodoStatus.opened
      TodoFilter.inbox] ("Buy milk")).2.2.1 (TodoSummary.mk "T1" "Buy milk" false) []
      (by decide),
   (claim_C1_create_recovery [] ("Buy milk")).2.2.2.2 (by decide) (by decide)⟩

/-- The delete fold counts exactly the ids present on the host, for a
duplicate-free id list, from any starting count. -/
theorem deleteTodosRun_count (ids : List String) :
    ∀ (c : Nat) (h : List String), ids.Nodup →
      (ids.foldl
        (fun acc id => if id ∈ acc.2 then (acc.1 + 1, acc.2.erase id) else acc)
        (c, h)).1 = c + (ids.filter (fun id => decide (id ∈ h))).length := by
  induction ids with
  | nil =>
    intro c h _
    simp
  | cons id rest ih =>
    intro c h hnd
    rw [List.nodup_cons] at hnd
    by_cases hmem : id ∈ h
    · rw [List.foldl_cons]
      simp only [if_pos hmem]
      rw [ih (c + 1) (h.erase id) hnd.2]
      have hfilter : rest.filter (fun x => decide (x ∈ h.erase id)) =
          rest.filter (fun x => decide (x ∈ h)) := by
        apply List.filter_congr
        intro x hx
        have hne : x ≠ id := fun hcontra => hnd.1 (hcontra ▸ hx)
        simp [List.mem_erase_of_ne hne]
      rw [hfilter]
      have hcons : (id :: rest).filter (fun x => decide (x ∈ h)) =
          id :: rest.filter (fun x => decide (x ∈ h)) := by
        simp [hmem]
      rw [hcons, List.length_cons]
      omega
    · rw [List.foldl_cons]
      simp only [if_neg hmem]
      rw [ih c h hnd.2]
      simp only [List.filter_cons]
      rw [if_neg (by simpa using hmem)]

/-- The host component of the delete fold only shrinks. -/
theorem deleteTodosRun_host_subset (ids : List String) :
    ∀ (c : Nat) (h : List String),
      (ids.foldl
        (fun acc id => if id ∈ acc.2 then (acc.1 + 1, acc.2.erase id) else acc)
        (c, h)).2 ⊆ h := by
  induction ids with
  | nil =>
    intro c h
    simp
  | cons id rest ih =>
    intro c h
    rw [List.foldl_cons]
    by_cases hmem : id ∈ h
    · rw [if_pos hmem]
      exact fun x hx => (h.erase_subset id) (ih (c + 1) (h.erase id) hx)
    · rw [if_neg hmem]
      exact ih c h

/-- C6: batch delete skips ids missing from the host without raising an
error, reports a deleted count equal to the number of ids that existed and
were deleted, and reports overall success exactly when that count is
positive. -/
theorem claim_C6_delete_todos (host ids : List String) :
    (ids.Nodup → (deleteTodosResult host ids).count =
      (ids.filter (fun id => decide (id ∈ host))).length) ∧
    ((deleteTodosResult host ids).success = true ↔
      (deleteTodosResult host ids).count > 0) ∧
    (∀ id, id ∉ host → deleteTodosRun host (ids ++ [id]) = deleteTodosRun host ids) := by
  refine ⟨?_, ?_, ?_⟩
  · intro hnd
    have h := deleteTodosRun_count ids 0 host hnd
    simpa [deleteTodosResult, deleteTodosRun] using h
  · simp [deleteTodosResult]
  · intro id hid
    unfold deleteTodosRun
    rw [List.foldl_append]
    have hnot : id ∉ (ids.foldl
        (fun acc i => if i ∈ acc.2 then (acc.1 + 1, acc.2.erase i) else acc)
        (0, host)).2 :=
      fun hc => hid (deleteTodosRun_host_subset ids 0 host hc)
    simp [if_neg hnot]

/-- Witness for C6 at the claim's concrete example: deleting 3 ids of which
1 is missing reports deletedCount 2 and success true. -/
theorem claim_C6_delete_todos_witness :
    (deleteTodosResult ["a", "b"] ["a", "b", "c"]).count = 2 ∧
    (deleteTodosResult ["a", "b"] ["a", "b", "c"]).success = true := by
  constructor
  · have h := (claim_C6_delete_todos ["a", "b"] ["a", "b", "c"]).1 (by decide)
    rw [h]
    decide
  · apply (claim_C6_delete_todos ["a", "b"] ["a", "b", "c"]).2.1.mpr
    have h := (claim_C6_delete_todos ["a", "b"] ["a", "b", "c"]).1 (by decide)
    rw [h]
    decide

/-- C7 counterexample: for the batch complete of ids a, b against a host
holding only an open a, the change takes effect on exactly one item, yet
the reported completedCount is 2 — the reported count is the number of ids
submitted, not a per-item-success count. -/
theorem claim_C7_counterexample :
    (completeTodosResult ["a", "b"]).count ≠
      completedEffectCount [("a", false)] (statusChangeItems none true ["a", "b"]) ∧
    completedEffectCount [("a", false)] (statusChangeItems none true ["a", "b"]) = 1 ∧
    (completeTodosResult ["a", "b"]).count = 2 := by
  refine ⟨by decide, by decide, rfl⟩

/-- C7 (amended): each id of a batch status change becomes its own update
item in the emitted document (so the host applies the items item-by-item),
but the reported completedCount / uncompletedCount is the number of ids
submitted, ids.length — the fire-and-forget activation channel returns no
per-item status, so the count does not reflect how many changes took
effect. -/
theorem claim_C7_batch_count_submitted (ids : List String) (authToken : Option String) :
    (completeTodosResult ids).success = true ∧
    (completeTodosResult ids).count = ids.length ∧
    (uncompleteTodosResult ids).count = ids.length ∧
    (statusChangeItems authToken true ids).length = ids.length ∧
    (∀ item ∈ statusChangeItems authToken true ids,
      item.operation = "update" ∧
        ("completed", AttrValue.boolVal true) ∈ item.attributes) := by
  refine ⟨rfl, rfl, rfl, List.length_map _ _, ?_⟩
  intro item hitem
  unfold statusChangeItems at hitem
  rw [List.mem_map] at hitem
  obtain ⟨id, _, rfl⟩ := hitem
  exact ⟨rfl, List.mem_cons_self _ _⟩

/-- Witness for C7's amended theorem at the singleton batch of id x. -/
theorem claim_C7_batch_count_submitted_witness :
    (completeTodosResult ["x"]).count = 1 ∧
    ("completed", AttrValue.boolVal true) ∈
      (Things3JsonItem.mk "to-do" "x" "update"
        [("completed", AttrValue.boolVal true)]).attributes :=
  ⟨(claim_C7_batch_count_submitted ["x"] none).2.1,
   ((claim_C7_batch_count_submitted ["x"] none).2.2.2.2
     (Things3JsonItem.mk "to-do" "x" "update" [("completed", AttrValue.boolVal true)])
     (by decide)).2⟩

/-- C8 counterexample: for the checklist-item read channel, a timeout, a
spawn failure and a non-zero sqlite exit each reach `getChecklistItems`'s
caller as the empty list, not as an error — even though `queryDatabase`
rejects with a distinct message. -/
theorem claim_C8_counterexample :
    getChecklistItems ProcOutcome.timedOut = [] ∧
    getChecklistItems (ProcOutcome.spawnFailed "boom") = [] ∧
    getChecklistItems (ProcOutcome.exited 1 "" "database is locked") = [] ∧
    queryDatabase ProcOutcome.timedOut =
      Except.error "SQLite query timed out after 10s" := by
  refine ⟨rfl, rfl, by decide, rfl⟩

/-- C8 (amended): `queryDatabase` rejects spawn failure, non-zero exit and
timeout with distinct error kinds, but `getChecklistItems` catches every
such error and returns the empty list, so its caller sees an empty result
rather than an error. -/
theorem claim_C8_database_channel (outcome : ProcOutcome) :
    queryDatabase ProcOutcome.timedOut =
      Except.error "SQLite query timed out after 10s" ∧
    (∀ m, queryDatabase (ProcOutcome.spawnFailed m) =
      Except.error ("Failed to spawn sqlite3: " ++ m)) ∧
    (∀ (c : Int) (out err : String), c ≠ 0 →
      queryDatabase (ProcOutcome.exited c out err) =
        Except.error ("sqlite3 exited with code " ++ toString c ++ ": " ++ err)) ∧
    (∀ e, queryDatabase outcome = Except.error e → getChecklistItems outcome = []) := by
  refine ⟨rfl, fun m => rfl, ?_, ?_⟩
  · intro c out err hc
    simp [queryDatabase, hc]
  · intro e he
    unfold getChecklistItems
    rw [he]

/-- Witness for C8's amended theorem: a spawn failure propagates to an
empty checklist result, and exit code 1 yields the exit-error message. -/
theorem claim_C8_database_channel_witness :
    getChecklistItems (ProcOutcome.spawnFailed "no such file") = [] ∧
    queryDatabase (ProcOutcome.exited 1 "" "locked") =
      Except.error "sqlite3 exited with code 1: locked" :=
  ⟨(claim_C8_database_channel (ProcOutcome.spawnFailed "no such file")).2.2.2
     ("Failed to spawn sqlite3: " ++ "no such file") rfl,
   ((claim_C8_database_channel ProcOutcome.timedOut).2.2.1 1 "" "locked"
     (by decide)).trans (congrArg Except.error (by decide))⟩

end Things3
